import Mathlib

/-!
Formal model of the Rao-Blackwellized / marginal particle filter engines
`rbpf_hmm` and `rbpf_kalman` of `include/rbpf.h`.

Modelling conventions.

* The two engine classes are templates over `nparts` (particle count) and
  store three parallel arrays of that size; we embed the arrays as functions
  `Fin (n+1) → _`, i.e. the embedding fixes `nparts = n + 1 ≥ 1`.  Note that
  the source itself indexes particle `0` unconditionally in the expectation
  loop (`h(m_p_innerMods[0].getFilterVec(), m_p_samps[0])`), so a positive
  particle count is a precondition of the code as written.
* The user model is the set of pure virtual callbacks of the engine classes
  (`q1Samp`, `logMuEv`, `logQ1Ev`, `qSamp`, `logFEv`, `logQEv`, the inner
  filter initializers/updaters and `getLogCondLike`/`getFilterVec` of the
  inner filter).  We package them in a record `RbpfModel`; the random
  samplers additionally receive the particle index, standing for one
  independent RNG stream per particle.  The in-place mutation
  `updateHMM(aModel, yt, x2t)` / `updateKalman(...)` is embedded by explicit
  state passing `updateInner : ι → γ → σ → ι`.
* `double` values flowing through `std::log` / `std::exp` in the
  expectation loop are modelled by `RVal`, finite reals extended with the
  IEEE special values `+∞`, `−∞`, `NaN`; log-weights themselves are
  modelled as (finite) reals, the regime all the claims quantify over.
  Arithmetic on finite doubles is modelled exactly (no rounding).
* The header as distributed does not compile; where an identifier is a pure
  lexical slip with a unique evident referent we resolve it to that
  referent and record the slip in a comment at the definition
  (`m_logLastCondLike` / `m_lastCondLike` for the sole declared member
  `m_lastLogCondLike`; `m_logUnNormWeights` without index in the HMM
  numerator loop; `updateFSHMM` for the virtual `updateHMM`; `reampT` for
  `resampT`).  Semantically meaningful statements are embedded exactly as
  written, in particular the Kalman weight update that multiplies
  `getLogCondLike()` by `logFEv(...)`, and the HMM weight update whose
  right-hand side is assigned to the (undeclared, never read) local
  `logUnNormWeightUpdate` so that the weight array is left unchanged.
* The resampler member `m_resampler` (an arbitrary template parameter
  `resampT`) is an opaque transformation of the three parallel arrays,
  passed as an explicit argument `ρ` to the step functions.
-/

noncomputable section

namespace Rbpf

open scoped BigOperators

/-- IEEE-style value of a C++ `double`: a finite real, `+∞`, `−∞`, or `NaN`.
Used to model the values produced by `std::log` / `std::exp` in the
expectation loops of `rbpf.h`. -/
inductive RVal : Type where
  | fin : ℝ → RVal
  | pinf : RVal
  | ninf : RVal
  | nan : RVal

/-- IEEE addition on `RVal`: `NaN` absorbs, opposite infinities give `NaN`,
an infinity absorbs finite summands, finite values add exactly. -/
def fpadd : RVal → RVal → RVal
  | .nan, _ => .nan
  | _, .nan => .nan
  | .fin x, .fin y => .fin (x + y)
  | .fin _, .pinf => .pinf
  | .fin _, .ninf => .ninf
  | .pinf, .fin _ => .pinf
  | .ninf, .fin _ => .ninf
  | .pinf, .pinf => .pinf
  | .ninf, .ninf => .ninf
  | .pinf, .ninf => .nan
  | .ninf, .pinf => .nan

/-- IEEE `std::exp` on an `RVal`: `exp(−∞) = 0`, `exp(+∞) = +∞`,
`exp(NaN) = NaN` (overflow of large finite arguments is not modelled,
consistently with exact arithmetic on finite doubles). -/
def fpexp : RVal → RVal
  | .fin x => .fin (Real.exp x)
  | .pinf => .pinf
  | .ninf => .fin 0
  | .nan => .nan

/-- IEEE `std::log` of a finite double: positive arguments give the real
logarithm, `log 0 = −∞`, and a negative argument gives `NaN`. -/
def fplog (x : ℝ) : RVal :=
  if 0 < x then .fin (Real.log x) else if x = 0 then .ninf else .nan

/-- Division of an `RVal` by a real scalar.  In every use in the engine the
scalar is a nonempty sum of exponentials of finite reals, hence strictly
positive, for which this agrees with IEEE division. -/
def fpdivPos : RVal → ℝ → RVal
  | .fin x, d => .fin (x / d)
  | .pinf, _ => .pinf
  | .ninf, _ => .ninf
  | .nan, _ => .nan

/-- Maximum entry of a (nonempty) weight array: the value of
`*std::max_element(m_logUnNormWeights.begin(), m_logUnNormWeights.end())`,
and equally of the running maxima accumulated with
`if(m_logUnNormWeights[ii] > m) m = m_logUnNormWeights[ii]` starting
from `-1.0/0.0`. -/
def maxW {n : ℕ} (w : Fin (n + 1) → ℝ) : ℝ :=
  Finset.univ.sup' ⟨0, Finset.mem_univ 0⟩ w

/-- Mathematical log-sum-exp of a weight array (specification-side notion
the likelihood computations are compared against). -/
def logsumexp {n : ℕ} (w : Fin (n + 1) → ℝ) : ℝ :=
  Real.log (∑ i, Real.exp (w i))

/-- One entry of the expectation accumulation of `rbpf.h` (both engines,
both branches): per particle the functional value is sent through
`std::log`, shifted by `logw[i] − m` and sent back through `std::exp`
(`tmp = tmp.array().log().matrix() + (m_logUnNormWeights[prtcl] - m)*ones;
numer = numer + tmp.array().exp().matrix();`), the results are accumulated
starting from zero in particle order, and the total is divided by
`denom = Σ exp(logw[i] − m)`. -/
def expectCell {n : ℕ} (H : Fin (n + 1) → ℝ) (w : Fin (n + 1) → ℝ) : RVal :=
  fpdivPos
    ((List.ofFn fun i => fpexp (fpadd (fplog (H i)) (RVal.fin (w i - maxW w)))).foldl
      fpadd (RVal.fin 0))
    (∑ i, Real.exp (w i - maxW w))

/-- The self-normalized weighted average that §4.5.3 of the specification
prescribes for one entry: `(Σᵢ hᵢ · exp(logwᵢ − m)) / (Σᵢ exp(logwᵢ − m))`
with `m` the maximum log-weight.  Stated from the specification's words, to
be compared with `expectCell`. -/
def specCell {n : ℕ} (H : Fin (n + 1) → ℝ) (w : Fin (n + 1) → ℝ) : ℝ :=
  (∑ i, H i * Real.exp (w i - maxW w)) / (∑ i, Real.exp (w i - maxW w))

/-- Full expectation matrix computed by the engines for one functional:
`expectCell` applied entrywise to the functional's output matrix. -/
def expectationMatFP {n d : ℕ} (hOut : Fin (n + 1) → Fin d → Fin d → ℝ)
    (w : Fin (n + 1) → ℝ) : Fin d → Fin d → RVal :=
  fun j k => expectCell (fun i => hOut i j k) w

/-- Specification-side expectation matrix: `specCell` entrywise. -/
def specExpectationMat {n d : ℕ} (hOut : Fin (n + 1) → Fin d → Fin d → ℝ)
    (w : Fin (n + 1) → ℝ) : Fin d → Fin d → ℝ :=
  fun j k => specCell (fun i => hOut i j k) w

/-- Positional write-back of the per-functional expectation values into the
cached vector `m_expectations` on a later step (`fId = 0; for (auto& h :
fs) { ...; m_expectations[fId] = numer/denom; fId++; }` with no resize):
each value is stored with `List.set` at the running index. -/
def writeExpectations {X : Type} : List X → List X → ℕ → List X
  | old, [], _ => old
  | old, v :: vs, fId => writeExpectations (old.set fId v) vs (fId + 1)

/-- The user model: the pure virtual callbacks of `rbpf_hmm` /
`rbpf_kalman`.  `σ` is the sampled-state type (`sssv`), `γ` the observation
type (`osv`), `ι` the inner closed-form filter type (`hmm<dimnss,dimy>` /
`kalman<dimnss,dimobs>`), `β` the type returned by the inner filter's
`getFilterVec()`.  The samplers `q1Samp` / `qSamp` take the particle index
(one independent RNG stream per particle).  `initInner` bundles
`initHMMProbVec`/`initHMMTransMat` plus the `hmm` constructor (resp.
`initKalmanMean`/`initKalmanVar` plus the `kalman` constructor);
`updateInner` is the in-place `updateHMM` / `updateKalman` in state-passing
form, and `innerLogCondLike` / `innerFilterVec` are the inner filter's
`getLogCondLike()` / `getFilterVec()` accessors. -/
structure RbpfModel (σ γ ι β : Type) where
  q1Samp : ℕ → γ → σ
  logMuEv : σ → ℝ
  logQ1Ev : σ → γ → ℝ
  qSamp : ℕ → σ → γ → σ
  logFEv : σ → σ → ℝ
  logQEv : σ → σ → γ → ℝ
  initInner : σ → ι
  updateInner : ι → γ → σ → ι
  innerLogCondLike : ι → ℝ
  innerFilterVec : ι → β

/-- Engine state: the private members of `rbpf_hmm` / `rbpf_kalman`
(`m_now`, `m_lastLogCondLike`, `m_rs`, `m_p_innerMods`, `m_p_samps`,
`m_logUnNormWeights`, `m_expectations`).  The particle count is `n + 1`. -/
structure RbpfState (n d : ℕ) (σ ι : Type) where
  now : ℕ
  lastLogCondLike : ℝ
  rs : ℕ
  innerMods : Fin (n + 1) → ι
  samps : Fin (n + 1) → σ
  logUnNormWeights : Fin (n + 1) → ℝ
  expectations : List (Fin d → Fin d → RVal)

/-- A resampler (`resampT::resampLogWts`): an arbitrary in-place
transformation of the three parallel arrays, embedded as a function
returning the new triple. -/
def Resampler (n : ℕ) (σ ι : Type) : Type :=
  (Fin (n + 1) → ι) → (Fin (n + 1) → σ) → (Fin (n + 1) → ℝ) →
    (Fin (n + 1) → ι) × (Fin (n + 1) → σ) × (Fin (n + 1) → ℝ)

/-- Constructor `rbpf_hmm::rbpf_hmm(resamp_sched)`: sets `m_now = 0`,
`m_lastLogCondLike = 0.0`, `m_rs = resamp_sched`; `m_expectations` is
default-constructed empty; `m_p_innerMods` and `m_p_samps` are
default-constructed arrays (passed here as `i0`, `s0`).  The source line
`std::fill(m_logUnNormWeights.begin(), m_logUnNormWeights.end());` lacks a
fill value; the log-weights are initialized to the specification's stated
initial value `0`, and are in any case fully overwritten by the first
`filter` call. -/
def mkRbpfHmm {n d : ℕ} {σ ι : Type} (resampSched : ℕ) (i0 : ι) (s0 : σ) :
    RbpfState n d σ ι :=
  { now := 0, lastLogCondLike := 0, rs := resampSched,
    innerMods := fun _ => i0, samps := fun _ => s0,
    logUnNormWeights := fun _ => 0, expectations := [] }

/-- Constructor `rbpf_kalman::rbpf_kalman(resamp_sched)`: member-for-member
identical to `rbpf_hmm`'s constructor (same member initializer list, same
argument-less `std::fill`). -/
def mkRbpfKalman {n d : ℕ} {σ ι : Type} (resampSched : ℕ) (i0 : ι) (s0 : σ) :
    RbpfState n d σ ι :=
  { now := 0, lastLogCondLike := 0, rs := resampSched,
    innerMods := fun _ => i0, samps := fun _ => s0,
    logUnNormWeights := fun _ => 0, expectations := [] }

/-- Accessor `getLogCondLike()` (both engines): returns
`m_lastLogCondLike`. -/
def getLogCondLike {n d : ℕ} {σ ι : Type} (st : RbpfState n d σ ι) : ℝ :=
  st.lastLogCondLike

/-- Accessor `getExpectations()` (both engines): returns
`m_expectations`. -/
def getExpectations {n d : ℕ} {σ ι : Type} (st : RbpfState n d σ ι) :
    List (Fin d → Fin d → RVal) :=
  st.expectations

/-- First-branch samples: `m_p_samps[ii] = q1Samp(data)`. -/
def firstSamps {n : ℕ} {σ γ ι β : Type} (M : RbpfModel σ γ ι β) (data : γ) :
    Fin (n + 1) → σ :=
  fun i => M.q1Samp i data

/-- First-branch inner filters: construct from `initHMMProbVec` /
`initHMMTransMat` (resp. `initKalmanMean` / `initKalmanVar`) and advance
once with `updateHMM` (resp. `updateKalman`) on `(data, m_p_samps[ii])`. -/
def firstInner {n : ℕ} {σ γ ι β : Type} (M : RbpfModel σ γ ι β) (data : γ) :
    Fin (n + 1) → ι :=
  fun i => M.updateInner (M.initInner (firstSamps M data i)) data (firstSamps M data i)

/-- First-branch log-weights: `m_logUnNormWeights[ii] =
m_p_innerMods[ii].getLogCondLike() + logMuEv(m_p_samps[ii]) -
logQ1Ev(m_p_samps[ii], data);` (identical in both engines). -/
def firstWeights {n : ℕ} {σ γ ι β : Type} (M : RbpfModel σ γ ι β) (data : γ) :
    Fin (n + 1) → ℝ :=
  fun i =>
    M.innerLogCondLike (firstInner M data i) + M.logMuEv (firstSamps M data i) -
      M.logQ1Ev (firstSamps M data i) data

/-- The `m_now == 0` branch of `filter` — line-for-line parallel in
`rbpf_hmm::filter` and `rbpf_kalman::filter`: per particle sample, build
and advance the inner filter, set the log-weight; then
`m_lastLogCondLike = m + log(Σ exp(logw − m)) − log(nparts)` with `m` the
running maximum of the fresh log-weights (in the Kalman body the assignment
is spelled `m_logLastCondLike`, a lexical slip for the sole declared member
`m_lastLogCondLike`); then `m_expectations.resize(fs.size())` followed by
the positional expectation writes (equivalently, a map over `fs`); then
resample through `m_resampler.resampLogWts` iff `(m_now+1) % m_rs == 0`;
finally `m_now++`. -/
def firstStep {n d : ℕ} {σ γ ι β : Type} (M : RbpfModel σ γ ι β)
    (ρ : Resampler n σ ι) (st : RbpfState n d σ ι) (data : γ)
    (fs : List (β → σ → Fin d → Fin d → ℝ)) : RbpfState n d σ ι :=
  let samps := firstSamps M data
  let inner := firstInner M data
  let logw := firstWeights M data
  let m := maxW logw
  let ll := m + Real.log (∑ i, Real.exp (logw i - m)) - Real.log ((n : ℝ) + 1)
  let expecs :=
    fs.map fun h =>
      expectationMatFP (fun i => h (M.innerFilterVec (inner i)) (samps i)) logw
  let res := if (st.now + 1) % st.rs = 0 then ρ inner samps logw else (inner, samps, logw)
  { now := st.now + 1, lastLogCondLike := ll, rs := st.rs,
    innerMods := res.1, samps := res.2.1, logUnNormWeights := res.2.2,
    expectations := expecs }

/-- Later-branch proposed samples: `newX2Samp = qSamp(m_p_samps[ii], data)`
(read from the pre-step samples; `m_p_samps[ii] = newX2Samp` happens at the
end of the particle's iteration). -/
def laterSamps {n d : ℕ} {σ γ ι β : Type} (M : RbpfModel σ γ ι β)
    (st : RbpfState n d σ ι) (data : γ) : Fin (n + 1) → σ :=
  fun i => M.qSamp i (st.samps i) data

/-- Later-branch inner filters: advance `m_p_innerMods[ii]` with the new
sample (in the HMM body the call is spelled `updateFSHMM(...)`, a lexical
slip for the virtual member `updateHMM`). -/
def laterInner {n d : ℕ} {σ γ ι β : Type} (M : RbpfModel σ γ ι β)
    (st : RbpfState n d σ ι) (data : γ) : Fin (n + 1) → ι :=
  fun i => M.updateInner (st.innerMods i) data (laterSamps M st data i)

/-- The right-hand side the HMM later branch computes per particle:
`logUnNormWeightUpdate = m_p_innerMods[ii].getLogCondLike() +
logFEv(newX2Samp, m_p_samps[ii]) - logQEv(newX2Samp, m_p_samps[ii], data);`.
The target `logUnNormWeightUpdate` is an undeclared local that no other
statement reads: the value is computed and dropped. -/
def hmmDeadWeightUpdate {n d : ℕ} {σ γ ι β : Type} (M : RbpfModel σ γ ι β)
    (st : RbpfState n d σ ι) (data : γ) : Fin (n + 1) → ℝ :=
  fun i =>
    M.innerLogCondLike (laterInner M st data i) +
      M.logFEv (laterSamps M st data i) (st.samps i) -
      M.logQEv (laterSamps M st data i) (st.samps i) data

/-- Log-weights after the HMM later branch: no statement of the branch
writes `m_logUnNormWeights` (the additive update is assigned to the dead
local `logUnNormWeightUpdate`, see `hmmDeadWeightUpdate`), so the array is
left unchanged. -/
def laterWeightsHmm {n d : ℕ} {σ γ ι β : Type} (M : RbpfModel σ γ ι β)
    (st : RbpfState n d σ ι) (data : γ) : Fin (n + 1) → ℝ :=
  st.logUnNormWeights

/-- Log-weights after the Kalman later branch:
`m_logUnNormWeights[ii] += m_p_innerMods[ii].getLogCondLike() *
logFEv(newX2Samp, m_p_samps[ii]) - logQEv(newX2Samp, m_p_samps[ii], data);`
— note the multiplication of `getLogCondLike()` by `logFEv(...)`, embedded
exactly as written. -/
def laterWeightsKalman {n d : ℕ} {σ γ ι β : Type} (M : RbpfModel σ γ ι β)
    (st : RbpfState n d σ ι) (data : γ) : Fin (n + 1) → ℝ :=
  fun i =>
    st.logUnNormWeights i +
      M.innerLogCondLike (laterInner M st data i) *
        M.logFEv (laterSamps M st data i) (st.samps i) -
      M.logQEv (laterSamps M st data i) (st.samps i) data

/-- The `m_now > 0` branch of `filter`, shared shape of both engines,
parameterized by the post-update weight array `wNew` (`laterWeightsHmm` or
`laterWeightsKalman`): capture `m2 = *max_element(m_logUnNormWeights...)`
and accumulate `sumexpdenom = Σ exp(old logw − m2)` (each particle's term
is read before that particle's weight statement); run the per-particle
update; `m_lastLogCondLike = m1 + log(Σ exp(new logw − m1)) − m2 −
log(sumexpdenom)` with `m1` the running maximum of the updated weights (in
the HMM body the numerator sum is spelled without the index `[p]`, and in
the Kalman body the assignment is spelled `m_lastCondLike`; both are
lexical slips); recompute the expectations from the updated inner filters,
samples and weights, writing them positionally into `m_expectations`
without resizing; resample iff `(m_now+1) % m_rs == 0`; `m_now++`. -/
def laterStepCore {n d : ℕ} {σ γ ι β : Type} (M : RbpfModel σ γ ι β)
    (ρ : Resampler n σ ι) (st : RbpfState n d σ ι) (data : γ)
    (fs : List (β → σ → Fin d → Fin d → ℝ)) (wNew : Fin (n + 1) → ℝ) :
    RbpfState n d σ ι :=
  let samps := laterSamps M st data
  let inner := laterInner M st data
  let m2 := maxW st.logUnNormWeights
  let sumexpdenom := ∑ i, Real.exp (st.logUnNormWeights i - m2)
  let m1 := maxW wNew
  let sumexpnumer := ∑ i, Real.exp (wNew i - m1)
  let ll := m1 + Real.log sumexpnumer - m2 - Real.log sumexpdenom
  let vals :=
    fs.map fun h =>
      expectationMatFP (fun i => h (M.innerFilterVec (inner i)) (samps i)) wNew
  let expecs := writeExpectations st.expectations vals 0
  let res := if (st.now + 1) % st.rs = 0 then ρ inner samps wNew else (inner, samps, wNew)
  { now := st.now + 1, lastLogCondLike := ll, rs := st.rs,
    innerMods := res.1, samps := res.2.1, logUnNormWeights := res.2.2,
    expectations := expecs }

/-- The `m_now > 0` branch of `rbpf_hmm::filter`. -/
def laterStepHmm {n d : ℕ} {σ γ ι β : Type} (M : RbpfModel σ γ ι β)
    (ρ : Resampler n σ ι) (st : RbpfState n d σ ι) (data : γ)
    (fs : List (β → σ → Fin d → Fin d → ℝ)) : RbpfState n d σ ι :=
  laterStepCore M ρ st data fs (laterWeightsHmm M st data)

/-- The `m_now > 0` branch of `rbpf_kalman::filter`. -/
def laterStepKalman {n d : ℕ} {σ γ ι β : Type} (M : RbpfModel σ γ ι β)
    (ρ : Resampler n σ ι) (st : RbpfState n d σ ι) (data : γ)
    (fs : List (β → σ → Fin d → Fin d → ℝ)) : RbpfState n d σ ι :=
  laterStepCore M ρ st data fs (laterWeightsKalman M st data)

/-- `rbpf_hmm::filter(data, fs)`: dispatch on `m_now == 0`. -/
def filterHmm {n d : ℕ} {σ γ ι β : Type} (M : RbpfModel σ γ ι β)
    (ρ : Resampler n σ ι) (st : RbpfState n d σ ι) (data : γ)
    (fs : List (β → σ → Fin d → Fin d → ℝ)) : RbpfState n d σ ι :=
  if st.now = 0 then firstStep M ρ st data fs else laterStepHmm M ρ st data fs

/-- `rbpf_kalman::filter(data, fs)`: dispatch on `m_now == 0`. -/
def filterKalman {n d : ℕ} {σ γ ι β : Type} (M : RbpfModel σ γ ι β)
    (ρ : Resampler n σ ι) (st : RbpfState n d σ ι) (data : γ)
    (fs : List (β → σ → Fin d → Fin d → ℝ)) : RbpfState n d σ ι :=
  if st.now = 0 then firstStep M ρ st data fs else laterStepKalman M ρ st data fs

/-- A concrete trivial user model over unit types, used to evaluate the
engines on explicit inputs: all densities return `0` except
`logFEv ≡ 3`, and the inner filter's conditional log-likelihood is `2`. -/
def trivModel : RbpfModel Unit Unit Unit Unit :=
  { q1Samp := fun _ _ => (), logMuEv := fun _ => 0, logQ1Ev := fun _ _ => 0,
    qSamp := fun _ _ _ => (), logFEv := fun _ _ => 3, logQEv := fun _ _ _ => 0,
    initInner := fun _ => (), updateInner := fun _ _ _ => (),
    innerLogCondLike := fun _ => 2, innerFilterVec := fun _ => () }

/-- The identity resampler (a legitimate instantiation of the opaque
`resampT` parameter for evaluating the engines on concrete inputs). -/
def idResampler {n : ℕ} {σ ι : Type} : Resampler n σ ι := fun a b c => (a, b, c)

/-- A concrete one-particle engine state at `m_now = 1` with zero
log-weights, resampling period `3`, and a one-element expectation cache. -/
def stOne : RbpfState 0 1 Unit Unit :=
  { now := 1, lastLogCondLike := 0, rs := 3, innerMods := fun _ => (),
    samps := fun _ => (), logUnNormWeights := fun _ => 0,
    expectations := [fun _ _ => RVal.fin 0] }

/-- A concrete one-particle engine state at `m_now = 0` (fresh), resampling
period `3`. -/
def stZero : RbpfState 0 1 Unit Unit :=
  { now := 0, lastLogCondLike := 0, rs := 3, innerMods := fun _ => (),
    samps := fun _ => (), logUnNormWeights := fun _ => 0, expectations := [] }

/-- A concrete one-particle engine state at `m_now = 1` with resampling
period `1` (every step resamples). -/
def stRsOne : RbpfState 0 1 Unit Unit :=
  { now := 1, lastLogCondLike := 0, rs := 1, innerMods := fun _ => (),
    samps := fun _ => (), logUnNormWeights := fun _ => 0, expectations := [] }

/-- A user functional whose (1×1) output matrix has the strictly negative
entry `−1` everywhere. -/
def negFunc : Unit → Unit → Fin 1 → Fin 1 → ℝ := fun _ _ _ _ => -1

/-- A user functional whose (1×1) output matrix has the positive entry `2`
everywhere. -/
def posFunc : Unit → Unit → Fin 1 → Fin 1 → ℝ := fun _ _ _ _ => 2

/-! ## Helper lemmas -/

theorem sum_exp_pos {n : ℕ} (w : Fin (n + 1) → ℝ) : 0 < ∑ i, Real.exp (w i) :=
  Finset.sum_pos (fun i _ => Real.exp_pos _) ⟨0, Finset.mem_univ 0⟩

theorem shifted_logsumexp {n : ℕ} (w : Fin (n + 1) → ℝ) (m : ℝ) :
    m + Real.log (∑ i, Real.exp (w i - m)) = logsumexp w := by
  have h1 : (∑ i, Real.exp (w i - m)) = (∑ i, Real.exp (w i)) * Real.exp (-m) := by
    rw [Finset.sum_mul]
    refine Finset.sum_congr rfl fun i _ => ?_
    rw [← Real.exp_add]
    ring_nf
  rw [logsumexp, h1,
    Real.log_mul (ne_of_gt (sum_exp_pos w)) (ne_of_gt (Real.exp_pos _)), Real.log_exp]
  ring

theorem logsumexp_add_const {n : ℕ} (w : Fin (n + 1) → ℝ) (c : ℝ) :
    logsumexp (fun i => w i + c) = logsumexp w + c := by
  have h1 : (∑ i, Real.exp (w i + c)) = (∑ i, Real.exp (w i)) * Real.exp c := by
    rw [Finset.sum_mul]
    exact Finset.sum_congr rfl fun i _ => Real.exp_add _ _
  rw [logsumexp, logsumexp, h1,
    Real.log_mul (ne_of_gt (sum_exp_pos w)) (ne_of_gt (Real.exp_pos _)), Real.log_exp]

theorem maxW_add_const {n : ℕ} (w : Fin (n + 1) → ℝ) (c : ℝ) :
    maxW (fun i => w i + c) = maxW w + c := by
  unfold maxW
  exact (Finset.comp_sup'_eq_sup'_comp _ (fun x => x + c)
    (fun x y => (max_add_add_right x y c).symm)).symm

theorem fpadd_nan_right (a : RVal) : fpadd a RVal.nan = RVal.nan := by
  cases a <;> rfl

theorem foldl_fpadd_fin (l : List ℝ) (a : ℝ) :
    (l.map RVal.fin).foldl fpadd (RVal.fin a) = RVal.fin (a + l.sum) := by
  induction l generalizing a with
  | nil => simp
  | cons x xs ih => simp [fpadd, ih, add_assoc]

theorem foldl_fpadd_nan_start (l : List RVal) : l.foldl fpadd RVal.nan = RVal.nan := by
  induction l with
  | nil => rfl
  | cons x xs ih => simpa [fpadd] using ih

theorem foldl_fpadd_of_mem_nan (l : List RVal) (hl : RVal.nan ∈ l) :
    ∀ a, l.foldl fpadd a = RVal.nan := by
  induction l with
  | nil => cases hl
  | cons x xs ih =>
    intro a
    rcases List.mem_cons.1 hl with h | h
    · rw [List.foldl_cons, ← h, fpadd_nan_right, foldl_fpadd_nan_start]
    · exact ih h _

theorem expectCell_of_nonneg {n : ℕ} (H w : Fin (n + 1) → ℝ) (hH : ∀ i, 0 ≤ H i) :
    expectCell H w = RVal.fin (specCell H w) := by
  unfold expectCell specCell
  have hterm : ∀ i : Fin (n + 1),
      fpexp (fpadd (fplog (H i)) (RVal.fin (w i - maxW w)))
        = RVal.fin (H i * Real.exp (w i - maxW w)) := by
    intro i
    rcases (hH i).lt_or_eq with hpos | hzero
    · simp only [fplog, if_pos hpos]
      simp [fpadd, fpexp, Real.exp_add, Real.exp_log hpos]
    · have hnotpos : ¬0 < H i := by
        rw [← hzero]
        exact lt_irrefl 0
      simp only [fplog, if_neg hnotpos, if_pos hzero.symm]
      simp [fpadd, fpexp, ← hzero]
  have hlist : (List.ofFn fun i => fpexp (fpadd (fplog (H i)) (RVal.fin (w i - maxW w))))
      = (List.ofFn fun i => H i * Real.exp (w i - maxW w)).map RVal.fin := by
    rw [List.map_ofFn]
    exact congrArg List.ofFn (funext hterm)
  rw [hlist, foldl_fpadd_fin, List.sum_ofFn, zero_add]
  rfl

theorem expectCell_of_neg {n : ℕ} (H w : Fin (n + 1) → ℝ) (i : Fin (n + 1))
    (hneg : H i < 0) : expectCell H w = RVal.nan := by
  unfold expectCell
  have hmem : RVal.nan ∈
      List.ofFn fun j => fpexp (fpadd (fplog (H j)) (RVal.fin (w j - maxW w))) := by
    rw [List.mem_ofFn]
    refine ⟨i, ?_⟩
    simp only [fplog, if_neg (not_lt.2 hneg.le), if_neg (ne_of_lt hneg)]
    rfl
  rw [foldl_fpadd_of_mem_nan _ hmem]
  rfl

theorem expectCell_shift {n : ℕ} (H w : Fin (n + 1) → ℝ) (c : ℝ) :
    expectCell H (fun i => w i + c) = expectCell H w := by
  have harg : ∀ i : Fin (n + 1), w i + c - maxW (fun j => w j + c) = w i - maxW w := by
    intro i
    rw [maxW_add_const]
    ring
  unfold expectCell
  simp only [harg]

theorem expectationMatFP_shift {n d : ℕ} (hOut : Fin (n + 1) → Fin d → Fin d → ℝ)
    (w : Fin (n + 1) → ℝ) (c : ℝ) :
    expectationMatFP hOut (fun i => w i + c) = expectationMatFP hOut w := by
  funext j k
  exact expectCell_shift _ w c

theorem writeExpectations_length {X : Type} (vals : List X) :
    ∀ (old : List X) (k : ℕ), (writeExpectations old vals k).length = old.length := by
  induction vals with
  | nil => intro old k; rfl
  | cons v vs ih => intro old k; rw [writeExpectations, ih, List.length_set]

theorem set_append_length {X : Type} (pre : List X) (o : X) (old : List X) (v : X) :
    (pre ++ o :: old).set pre.length v = pre ++ v :: old := by
  induction pre with
  | nil => rfl
  | cons p ps ih => simpa [List.set] using ih

theorem writeExpectations_append {X : Type} (vals : List X) :
    ∀ (pre old : List X), old.length = vals.length →
      writeExpectations (pre ++ old) vals pre.length = pre ++ vals := by
  induction vals with
  | nil =>
    intro pre old h
    rw [List.length_eq_zero.1 h]
    rfl
  | cons v vs ih =>
    intro pre old h
    cases old with
    | nil => simp at h
    | cons o old2 =>
      have hlen2 : old2.length = vs.length := by simpa using h
      rw [writeExpectations, set_append_length]
      have h2 := ih (pre ++ [v]) old2 hlen2
      rw [List.length_append, List.length_singleton, List.append_assoc] at h2
      simpa [List.append_assoc] using h2

theorem writeExpectations_full {X : Type} (old vals : List X)
    (h : old.length = vals.length) : writeExpectations old vals 0 = vals := by
  have h2 := writeExpectations_append vals [] old h
  simpa using h2

theorem laterStepCore_lastLogCondLike {n d : ℕ} {σ γ ι β : Type}
    (M : RbpfModel σ γ ι β) (ρ : Resampler n σ ι) (st : RbpfState n d σ ι)
    (data : γ) (fs : List (β → σ → Fin d → Fin d → ℝ)) (wNew : Fin (n + 1) → ℝ) :
    (laterStepCore M ρ st data fs wNew).lastLogCondLike
      = logsumexp wNew - logsumexp st.logUnNormWeights := by
  have h1 := shifted_logsumexp wNew (maxW wNew)
  have h2 := shifted_logsumexp st.logUnNormWeights (maxW st.logUnNormWeights)
  show maxW wNew + Real.log (∑ i, Real.exp (wNew i - maxW wNew))
      - maxW st.logUnNormWeights
      - Real.log (∑ i, Real.exp (st.logUnNormWeights i - maxW st.logUnNormWeights)) = _
  linarith

theorem laterStepCore_expectations {n d : ℕ} {σ γ ι β : Type}
    (M : RbpfModel σ γ ι β) (ρ : Resampler n σ ι) (st : RbpfState n d σ ι)
    (data : γ) (fs : List (β → σ → Fin d → Fin d → ℝ)) (wNew : Fin (n + 1) → ℝ) :
    (laterStepCore M ρ st data fs wNew).expectations
      = writeExpectations st.expectations
          (fs.map fun h => expectationMatFP
            (fun i => h (M.innerFilterVec (laterInner M st data i)) (laterSamps M st data i))
            wNew) 0 :=
  rfl

theorem laterStepCore_now {n d : ℕ} {σ γ ι β : Type}
    (M : RbpfModel σ γ ι β) (ρ : Resampler n σ ι) (st : RbpfState n d σ ι)
    (data : γ) (fs : List (β → σ → Fin d → Fin d → ℝ)) (wNew : Fin (n + 1) → ℝ) :
    (laterStepCore M ρ st data fs wNew).now = st.now + 1 :=
  rfl

theorem laterStepCore_arrays {n d : ℕ} {σ γ ι β : Type}
    (M : RbpfModel σ γ ι β) (ρ : Resampler n σ ι) (st : RbpfState n d σ ι)
    (data : γ) (fs : List (β → σ → Fin d → Fin d → ℝ)) (wNew : Fin (n + 1) → ℝ) :
    ((laterStepCore M ρ st data fs wNew).innerMods,
     (laterStepCore M ρ st data fs wNew).samps,
     (laterStepCore M ρ st data fs wNew).logUnNormWeights)
      = if (st.now + 1) % st.rs = 0
        then ρ (laterInner M st data) (laterSamps M st data) wNew
        else (laterInner M st data, laterSamps M st data, wNew) := by
  unfold laterStepCore
  by_cases hc : (st.now + 1) % st.rs = 0 <;> simp [hc]

theorem firstStep_lastLogCondLike {n d : ℕ} {σ γ ι β : Type}
    (M : RbpfModel σ γ ι β) (ρ : Resampler n σ ι) (st : RbpfState n d σ ι)
    (data : γ) (fs : List (β → σ → Fin d → Fin d → ℝ)) :
    (firstStep M ρ st data fs).lastLogCondLike
      = logsumexp (firstWeights (n := n) M data) - Real.log ((n : ℝ) + 1) := by
  have h1 := shifted_logsumexp (firstWeights (n := n) M data)
    (maxW (firstWeights (n := n) M data))
  show maxW (firstWeights (n := n) M data) +
      Real.log (∑ i, Real.exp (firstWeights (n := n) M data i -
        maxW (firstWeights (n := n) M data)))
      - Real.log ((n : ℝ) + 1) = _
  linarith

theorem firstStep_expectations {n d : ℕ} {σ γ ι β : Type}
    (M : RbpfModel σ γ ι β) (ρ : Resampler n σ ι) (st : RbpfState n d σ ι)
    (data : γ) (fs : List (β → σ → Fin d → Fin d → ℝ)) :
    (firstStep M ρ st data fs).expectations
      = fs.map fun h => expectationMatFP
          (fun i => h (M.innerFilterVec (firstInner (n := n) M data i))
            (firstSamps (n := n) M data i))
          (firstWeights (n := n) M data) :=
  rfl

theorem firstStep_arrays {n d : ℕ} {σ γ ι β : Type}
    (M : RbpfModel σ γ ι β) (ρ : Resampler n σ ι) (st : RbpfState n d σ ι)
    (data : γ) (fs : List (β → σ → Fin d → Fin d → ℝ)) :
    ((firstStep M ρ st data fs).innerMods,
     (firstStep M ρ st data fs).samps,
     (firstStep M ρ st data fs).logUnNormWeights)
      = if (st.now + 1) % st.rs = 0
        then ρ (firstInner M data) (firstSamps M data) (firstWeights M data)
        else (firstInner M data, firstSamps M data, firstWeights M data) := by
  unfold firstStep
  by_cases hc : (st.now + 1) % st.rs = 0 <;> simp [hc]

theorem laterWeightsKalman_shift {n d : ℕ} {σ γ ι β : Type}
    (M : RbpfModel σ γ ι β) (st : RbpfState n d σ ι) (data : γ) (c : ℝ) :
    laterWeightsKalman M
        { st with logUnNormWeights := fun i => st.logUnNormWeights i + c } data
      = fun i => laterWeightsKalman M st data i + c := by
  funext i
  simp only [laterWeightsKalman, laterInner, laterSamps]
  ring

theorem mod_eq_zero_iff_dvd_nat (r t : ℕ) : t % r = 0 ↔ r ∣ t := by
  constructor
  · exact Nat.dvd_of_mod_eq_zero
  · rintro ⟨k, rfl⟩
    exact Nat.mul_mod_right r k

theorem maxW_one (w : Fin 1 → ℝ) : maxW w = w 0 := by
  unfold maxW
  simp [Finset.univ_unique]

theorem laterSamps_update_logw {n d : ℕ} {σ γ ι β : Type} (M : RbpfModel σ γ ι β)
    (st : RbpfState n d σ ι) (data : γ) (f : Fin (n + 1) → ℝ) :
    laterSamps M { st with logUnNormWeights := f } data = laterSamps M st data :=
  rfl

theorem laterInner_update_logw {n d : ℕ} {σ γ ι β : Type} (M : RbpfModel σ γ ι β)
    (st : RbpfState n d σ ι) (data : γ) (f : Fin (n + 1) → ℝ) :
    laterInner M { st with logUnNormWeights := f } data = laterInner M st data :=
  rfl

theorem laterWeightsHmm_update_logw {n d : ℕ} {σ γ ι β : Type} (M : RbpfModel σ γ ι β)
    (st : RbpfState n d σ ι) (data : γ) (f : Fin (n + 1) → ℝ) :
    laterWeightsHmm M { st with logUnNormWeights := f } data = f :=
  rfl

theorem logw_update_logw {n d : ℕ} {σ ι : Type} (st : RbpfState n d σ ι)
    (f : Fin (n + 1) → ℝ) :
    ({ st with logUnNormWeights := f } : RbpfState n d σ ι).logUnNormWeights = f :=
  rfl

theorem expecs_update_logw {n d : ℕ} {σ ι : Type} (st : RbpfState n d σ ι)
    (f : Fin (n + 1) → ℝ) :
    ({ st with logUnNormWeights := f } : RbpfState n d σ ι).expectations
      = st.expectations :=
  rfl

theorem expectationMatFP_of_nonneg {n d : ℕ} (hOut : Fin (n + 1) → Fin d → Fin d → ℝ)
    (w : Fin (n + 1) → ℝ) (hpos : ∀ i j k, 0 ≤ hOut i j k) :
    expectationMatFP hOut w = fun j k => RVal.fin (specExpectationMat hOut w j k) := by
  funext j k
  exact expectCell_of_nonneg _ w (fun i => hpos i j k)

/-! ## Claim theorems -/

/-- Claim C1 (code bug): the specified additive log-weight update
`logw[i] ← logw[i] + lastLogCondLike + log_f − log_q` at `t > 1` is not
what either engine computes.  At a concrete input with `logw[i] = 0`,
`lastLogCondLike = 2`, `log_f = 3`, `log_q = 0`, the claimed additive
update yields `5`; the Kalman engine, which multiplies `lastLogCondLike`
by `log_f`, yields `6`; the HMM engine, whose additive right-hand side is
assigned to the dead local `logUnNormWeightUpdate`, leaves the weight at
`0` even though that right-hand side evaluates to the specified
`lastLogCondLike + log_f − log_q = 5`. -/
theorem c1_weight_update_eval :
    laterWeightsKalman trivModel stOne () 0 = 6
  ∧ laterWeightsHmm trivModel stOne () 0 = 0
  ∧ stOne.logUnNormWeights 0
      + trivModel.innerLogCondLike (laterInner trivModel stOne () 0)
      + trivModel.logFEv (laterSamps trivModel stOne () 0) (stOne.samps 0)
      - trivModel.logQEv (laterSamps trivModel stOne () 0) (stOne.samps 0) () = 5
  ∧ hmmDeadWeightUpdate trivModel stOne () 0 = 5
  ∧ (6 : ℝ) ≠ 5 ∧ (0 : ℝ) ≠ 5 := by
  refine ⟨?_, ?_, ?_, ?_, by norm_num, by norm_num⟩ <;>
    norm_num [laterWeightsKalman, laterWeightsHmm, hmmDeadWeightUpdate, laterInner,
      laterSamps, trivModel, stOne]

/-- Claim C2: at every later step (`t > 1`), the emitted log
conditional-likelihood increment equals `logsumexp` of the post-update
log-weights minus `logsumexp` of the pre-update log-weights (the code
computes both sides in max-shifted form, with the pre-update maximum `m2`
captured before the per-particle loop), and `getLogCondLike()` on the
post-step state returns exactly that increment — for both engine variants,
each with its own post-update weight array. -/
theorem c2_log_cond_like_increment {n d : ℕ} {σ γ ι β : Type}
    (M : RbpfModel σ γ ι β) (ρ : Resampler n σ ι) (st : RbpfState n d σ ι)
    (data : γ) (fs : List (β → σ → Fin d → Fin d → ℝ)) :
    getLogCondLike (laterStepHmm M ρ st data fs)
        = logsumexp (laterWeightsHmm M st data) - logsumexp st.logUnNormWeights
  ∧ getLogCondLike (laterStepKalman M ρ st data fs)
        = logsumexp (laterWeightsKalman M st data) - logsumexp st.logUnNormWeights :=
  ⟨laterStepCore_lastLogCondLike M ρ st data fs _,
   laterStepCore_lastLogCondLike M ρ st data fs _⟩

/-- Claim C3: on the first step, every particle's log-weight is set to the
inner filter's `getLogCondLike()` plus `logMuEv` of the sampled `x2` minus
`logQ1Ev` of that sample and the first observation (stated here on the
post-step weight array in the no-resampling case, since resampling may
subsequently overwrite the array), and the emitted log-likelihood is
`logsumexp(logw) − log(nparts)`.  The first branch is line-for-line
parallel in both engines and is embedded once as `firstStep`. -/
theorem c3_first_step {n d : ℕ} {σ γ ι β : Type}
    (M : RbpfModel σ γ ι β) (ρ : Resampler n σ ι) (st : RbpfState n d σ ι)
    (data : γ) (fs : List (β → σ → Fin d → Fin d → ℝ)) :
    ((st.now + 1) % st.rs ≠ 0 →
      (firstStep M ρ st data fs).logUnNormWeights = fun i =>
        M.innerLogCondLike (firstInner (n := n) M data i)
          + M.logMuEv (firstSamps (n := n) M data i)
          - M.logQ1Ev (firstSamps (n := n) M data i) data)
  ∧ getLogCondLike (firstStep M ρ st data fs)
      = logsumexp (firstWeights (n := n) M data) - Real.log ((n : ℝ) + 1) := by
  constructor
  · intro hgate
    have h := firstStep_arrays M ρ st data fs
    rw [if_neg hgate] at h
    exact congrArg (fun p => p.2.2) h
  · exact firstStep_lastLogCondLike M ρ st data fs

/-- Witness for C3: the no-resampling hypothesis holds at a concrete fresh
one-particle engine with resampling period `3`. -/
theorem c3_first_step_witness :
    (firstStep trivModel idResampler stZero ()
        ([] : List (Unit → Unit → Fin 1 → Fin 1 → ℝ))).logUnNormWeights
      = fun i => trivModel.innerLogCondLike (firstInner (n := 0) trivModel () i)
          + trivModel.logMuEv (firstSamps (n := 0) trivModel () i)
          - trivModel.logQ1Ev (firstSamps (n := 0) trivModel () i) () :=
  (c3_first_step trivModel idResampler stZero () []).1 (by norm_num [stZero])

/-- Claim C7 counterexample: constructing an engine with resampling period
`R = 0` is not detected as a configuration error — the constructors
contain no validation and store `m_rs = 0` unchanged, so `R ≥ 1` fails for
the resulting engine. -/
theorem c7_no_validation_counterexample :
    (mkRbpfHmm 0 () () : RbpfState 0 1 Unit Unit).rs = 0
  ∧ (mkRbpfKalman 0 () () : RbpfState 0 1 Unit Unit).rs = 0
  ∧ ¬1 ≤ (mkRbpfHmm 0 () () : RbpfState 0 1 Unit Unit).rs := by
  refine ⟨rfl, rfl, ?_⟩
  decide

/-- Claim C7 amended: the constructors perform no validation at all — any
resampling period, including `0`, is stored unchanged in `m_rs` (with
`R = 0` the first `filter` call then reaches `(m_now+1) % m_rs`, a modulo
by zero). -/
theorem c7_no_validation_amended {n d : ℕ} {σ ι : Type} (r : ℕ) (i0 : ι) (s0 : σ) :
    (mkRbpfHmm r i0 s0 : RbpfState n d σ ι).rs = r
  ∧ (mkRbpfKalman r i0 s0 : RbpfState n d σ ι).rs = r :=
  ⟨rfl, rfl⟩

/-- Claim C10: straight from the constructors, before any `filter` call,
`getLogCondLike()` returns `0.0` (member initializer
`m_lastLogCondLike(0.0)`) and `getExpectations()` returns the
default-constructed empty vector — for both engines. -/
theorem c10_initial_state {n d : ℕ} {σ ι : Type} (r : ℕ) (i0 : ι) (s0 : σ) :
    getLogCondLike (mkRbpfHmm r i0 s0 : RbpfState n d σ ι) = 0
  ∧ getExpectations (mkRbpfHmm r i0 s0 : RbpfState n d σ ι) = []
  ∧ getLogCondLike (mkRbpfKalman r i0 s0 : RbpfState n d σ ι) = 0
  ∧ getExpectations (mkRbpfKalman r i0 s0 : RbpfState n d σ ι) = [] :=
  ⟨rfl, rfl, rfl, rfl⟩

/-- Claim C5: shifting every log-weight by the same constant `c` before a
later step changes neither the emitted log-likelihood increment nor any
cached expectation (exactly so, in this exact-arithmetic model of finite
doubles), for both engines: every downstream computation subtracts the
running maximum log-weight before exponentiating, so the shift cancels. -/
theorem c5_shift_invariance {n d : ℕ} {σ γ ι β : Type}
    (M : RbpfModel σ γ ι β) (ρ : Resampler n σ ι) (st : RbpfState n d σ ι)
    (data : γ) (fs : List (β → σ → Fin d → Fin d → ℝ)) (c : ℝ) :
    ((laterStepHmm M ρ
        { st with logUnNormWeights := fun i => st.logUnNormWeights i + c }
        data fs).lastLogCondLike
      = (laterStepHmm M ρ st data fs).lastLogCondLike)
  ∧ ((laterStepHmm M ρ
        { st with logUnNormWeights := fun i => st.logUnNormWeights i + c }
        data fs).expectations
      = (laterStepHmm M ρ st data fs).expectations)
  ∧ ((laterStepKalman M ρ
        { st with logUnNormWeights := fun i => st.logUnNormWeights i + c }
        data fs).lastLogCondLike
      = (laterStepKalman M ρ st data fs).lastLogCondLike)
  ∧ ((laterStepKalman M ρ
        { st with logUnNormWeights := fun i => st.logUnNormWeights i + c }
        data fs).expectations
      = (laterStepKalman M ρ st data fs).expectations) := by
  refine ⟨?_, ?_, ?_, ?_⟩ <;>
    simp only [laterStepHmm, laterStepKalman, laterStepCore_lastLogCondLike,
      laterStepCore_expectations, laterSamps_update_logw, laterInner_update_logw,
      laterWeightsHmm, logw_update_logw, expecs_update_logw,
      laterWeightsKalman_shift, logsumexp_add_const, expectationMatFP_shift] <;>
    ring

/-- Claim C6: per step the engines perform, in order, propagation and
weight update, then the log-likelihood increment, then the expectations
(both computed from the post-update, pre-resample quantities, hence
independent of the resampler), then resampling of the three particle
arrays if and only if the advanced step count `m_now + 1` is divisible by
the resampling period (the code tests `(m_now+1) % m_rs == 0` before
incrementing `m_now`, so with `R = 1` every step resamples), and finally
the time increment.  Stated on `laterStepCore`, the common body of
`laterStepHmm` and `laterStepKalman` (last two conjuncts), for an
arbitrary post-update weight array `w`. -/
theorem c6_resampling_gate {n d : ℕ} {σ γ ι β : Type}
    (M : RbpfModel σ γ ι β) (ρ ρ2 : Resampler n σ ι) (st : RbpfState n d σ ι)
    (data : γ) (fs : List (β → σ → Fin d → Fin d → ℝ)) (w : Fin (n + 1) → ℝ) :
    ((laterStepCore M ρ st data fs w).now = st.now + 1)
  ∧ (((st.now + 1) % st.rs = 0) ↔ st.rs ∣ (st.now + 1))
  ∧ (((laterStepCore M ρ st data fs w).innerMods,
      (laterStepCore M ρ st data fs w).samps,
      (laterStepCore M ρ st data fs w).logUnNormWeights)
       = if (st.now + 1) % st.rs = 0
         then ρ (laterInner M st data) (laterSamps M st data) w
         else (laterInner M st data, laterSamps M st data, w))
  ∧ ((laterStepCore M ρ st data fs w).lastLogCondLike
       = (laterStepCore M ρ2 st data fs w).lastLogCondLike)
  ∧ ((laterStepCore M ρ st data fs w).expectations
       = (laterStepCore M ρ2 st data fs w).expectations)
  ∧ (st.rs = 1 → (st.now + 1) % st.rs = 0)
  ∧ (laterStepHmm M ρ st data fs
       = laterStepCore M ρ st data fs (laterWeightsHmm M st data))
  ∧ (laterStepKalman M ρ st data fs
       = laterStepCore M ρ st data fs (laterWeightsKalman M st data)) := by
  refine ⟨laterStepCore_now M ρ st data fs w,
    mod_eq_zero_iff_dvd_nat st.rs (st.now + 1),
    laterStepCore_arrays M ρ st data fs w, rfl, rfl, ?_, rfl, rfl⟩
  intro h1
  rw [h1]
  exact Nat.mod_one _

/-- Witness for C6: with resampling period `1` the gate condition holds at
a concrete state (every step resamples). -/
theorem c6_resampling_gate_witness : (stRsOne.now + 1) % stRsOne.rs = 0 :=
  (c6_resampling_gate trivModel idResampler idResampler stRsOne () []
    (fun _ => 0)).2.2.2.2.2.1 rfl

/-- Claim C8: when the cached expectations vector has the same length as
the functional list (the claim's same-length-across-calls hypothesis),
every positional write of a later step lands within bounds: the write loop
rewrites the vector to exactly the freshly computed per-functional values
and preserves its length, for both engines; and the first step sizes the
vector to the functional list's length (`m_expectations.resize(fs.size())`
followed by writes at `0 .. fs.size()-1`). -/
theorem c8_positional_write {n d : ℕ} {σ γ ι β : Type}
    (M : RbpfModel σ γ ι β) (ρ : Resampler n σ ι) (st : RbpfState n d σ ι)
    (data : γ) (fs : List (β → σ → Fin d → Fin d → ℝ))
    (hlen : st.expectations.length = fs.length) :
    ((laterStepHmm M ρ st data fs).expectations
        = fs.map fun h => expectationMatFP
            (fun i => h (M.innerFilterVec (laterInner M st data i)) (laterSamps M st data i))
            (laterWeightsHmm M st data))
  ∧ ((laterStepHmm M ρ st data fs).expectations.length = st.expectations.length)
  ∧ ((laterStepKalman M ρ st data fs).expectations
        = fs.map fun h => expectationMatFP
            (fun i => h (M.innerFilterVec (laterInner M st data i)) (laterSamps M st data i))
            (laterWeightsKalman M st data))
  ∧ ((laterStepKalman M ρ st data fs).expectations.length = st.expectations.length)
  ∧ ((firstStep M ρ st data fs).expectations.length = fs.length) := by
  refine ⟨?_, ?_, ?_, ?_, ?_⟩
  · rw [laterStepHmm, laterStepCore_expectations, writeExpectations_full]
    rw [List.length_map]
    exact hlen
  · rw [laterStepHmm, laterStepCore_expectations, writeExpectations_length]
  · rw [laterStepKalman, laterStepCore_expectations, writeExpectations_full]
    rw [List.length_map]
    exact hlen
  · rw [laterStepKalman, laterStepCore_expectations, writeExpectations_length]
  · rw [firstStep_expectations, List.length_map]

/-- Witness for C8: the same-length hypothesis holds at a concrete
one-particle state whose expectation cache has one entry, stepped with a
one-functional list. -/
theorem c8_positional_write_witness :
    (laterStepHmm trivModel idResampler stOne () [posFunc]).expectations.length
      = stOne.expectations.length :=
  (c8_positional_write trivModel idResampler stOne () [posFunc] rfl).2.1

/-- Claim C4 counterexample: the engines do not always cache the weighted
average `(Σᵢ h·exp(logwᵢ−m)) / (Σᵢ exp(logwᵢ−m))`: with a functional whose
output entry is `−1` at a particle with finite log-weight, the HMM engine
caches `NaN` (the entry passes through `std::log` of a negative number),
while the claimed weighted average at the same input is `−1`. -/
theorem c4_expectation_counterexample :
    ((laterStepHmm trivModel idResampler stOne () [negFunc]).expectations
        = [fun _ _ => RVal.nan])
  ∧ (specExpectationMat
      (fun i => negFunc (trivModel.innerFilterVec (laterInner trivModel stOne () i))
        (laterSamps trivModel stOne () i))
      (laterWeightsHmm trivModel stOne ()) = fun _ _ => (-1 : ℝ))
  ∧ RVal.nan ≠ RVal.fin (-1) := by
  refine ⟨?_, ?_, by intro h; exact RVal.noConfusion h⟩
  · rw [laterStepHmm, laterStepCore_expectations, writeExpectations_full]
    · simp only [List.map_cons, List.map_nil]
      have hmat : expectationMatFP
          (fun i => negFunc (trivModel.innerFilterVec (laterInner trivModel stOne () i))
            (laterSamps trivModel stOne () i))
          (laterWeightsHmm trivModel stOne ())
          = fun _ _ => RVal.nan := by
        funext j k
        exact expectCell_of_neg _ _ 0 (by norm_num [negFunc])
      rw [hmat]
    · rfl
  · funext j k
    simp only [specExpectationMat, specCell, negFunc, laterWeightsHmm, stOne]
    rw [show maxW (fun _ : Fin 1 => (0 : ℝ)) = 0 from maxW_one _]
    norm_num [Fin.sum_univ_one, Real.exp_zero]

/-- Claim C4 amended: the cached expectation equals the weighted average
`(Σᵢ h·exp(logwᵢ−m)) / (Σᵢ exp(logwᵢ−m))` (with `m` the maximum
post-update log-weight) provided every entry of every functional's output
at the step's particles is nonnegative; it is computed from the
pre-resample weights (the right-hand side does not involve the resampler
`ρ`), for both engines.  The same-length hypothesis of C8 makes the
positional writes land. -/
theorem c4_expectation_amended {n d : ℕ} {σ γ ι β : Type}
    (M : RbpfModel σ γ ι β) (ρ : Resampler n σ ι) (st : RbpfState n d σ ι)
    (data : γ) (fs : List (β → σ → Fin d → Fin d → ℝ))
    (hlen : st.expectations.length = fs.length)
    (hpos : ∀ h ∈ fs, ∀ (i : Fin (n + 1)) (j k : Fin d),
      0 ≤ h (M.innerFilterVec (laterInner M st data i)) (laterSamps M st data i) j k) :
    ((laterStepHmm M ρ st data fs).expectations
        = fs.map fun h => fun j k => RVal.fin (specExpectationMat
            (fun i => h (M.innerFilterVec (laterInner M st data i)) (laterSamps M st data i))
            (laterWeightsHmm M st data) j k))
  ∧ ((laterStepKalman M ρ st data fs).expectations
        = fs.map fun h => fun j k => RVal.fin (specExpectationMat
            (fun i => h (M.innerFilterVec (laterInner M st data i)) (laterSamps M st data i))
            (laterWeightsKalman M st data) j k)) := by
  constructor
  · rw [laterStepHmm, laterStepCore_expectations, writeExpectations_full]
    · exact List.map_congr_left fun h hm =>
        expectationMatFP_of_nonneg _ _ (hpos h hm)
    · rw [List.length_map]
      exact hlen
  · rw [laterStepKalman, laterStepCore_expectations, writeExpectations_full]
    · exact List.map_congr_left fun h hm =>
        expectationMatFP_of_nonneg _ _ (hpos h hm)
    · rw [List.length_map]
      exact hlen

/-- Witness for C4 (amended): at a concrete one-particle state with the
everywhere-`2` functional, both hypotheses hold and the cached expectation
is the weighted average. -/
theorem c4_expectation_witness :
    (laterStepHmm trivModel idResampler stOne () [posFunc]).expectations
      = [posFunc].map fun h => fun j k => RVal.fin (specExpectationMat
          (fun i => h (trivModel.innerFilterVec (laterInner trivModel stOne () i))
            (laterSamps trivModel stOne () i))
          (laterWeightsHmm trivModel stOne ()) j k) :=
  (c4_expectation_amended trivModel idResampler stOne () [posFunc] rfl
    (by
      intro h hm i j k
      rw [List.mem_singleton] at hm
      subst hm
      norm_num [posFunc])).1

/-- Claim C9: the expectation computation sends each functional-output
entry through `std::log` before shifting by `logw[i] − m` and
exponentiating.  Consequently (i) at a concrete input whose functional
output entry is `−1` at a particle with finite log-weight, the Kalman
engine caches `NaN`; (ii) whenever every entry is nonnegative the
computation agrees with the direct weighted average `specCell`; and (iii)
whenever some entry is strictly negative at any particle the computed cell
is `NaN` (so agreement with the real-valued weighted average requires
nonnegativity). -/
theorem c9_logexp_expectation :
    ((laterStepKalman trivModel idResampler stOne () [negFunc]).expectations
        = [fun _ _ => RVal.nan])
  ∧ (∀ (m : ℕ) (H w : Fin (m + 1) → ℝ), (∀ i, 0 ≤ H i) →
      expectCell H w = RVal.fin (specCell H w))
  ∧ (∀ (m : ℕ) (H w : Fin (m + 1) → ℝ) (i : Fin (m + 1)), H i < 0 →
      expectCell H w = RVal.nan) := by
  refine ⟨?_, fun m H w hH => expectCell_of_nonneg H w hH,
    fun m H w i hneg => expectCell_of_neg H w i hneg⟩
  rw [laterStepKalman, laterStepCore_expectations, writeExpectations_full]
  · simp only [List.map_cons, List.map_nil]
    have hmat : expectationMatFP
        (fun i => negFunc (trivModel.innerFilterVec (laterInner trivModel stOne () i))
          (laterSamps trivModel stOne () i))
        (laterWeightsKalman trivModel stOne ())
        = fun _ _ => RVal.nan := by
      funext j k
      exact expectCell_of_neg _ _ 0 (by norm_num [negFunc])
    rw [hmat]
  · rfl

/-- Witness for C9: the nonnegativity hypothesis of the agreement part
holds at a concrete constant-`2` entry array. -/
theorem c9_logexp_expectation_witness :
    expectCell (fun _ : Fin 1 => (2 : ℝ)) (fun _ => 0)
      = RVal.fin (specCell (fun _ : Fin 1 => (2 : ℝ)) (fun _ => 0)) :=
  c9_logexp_expectation.2.1 0 _ _ (fun i => by norm_num)

end Rbpf
